import Mathlib

set_option maxHeartbeats 1000000

namespace Pebble

/-!
Shallow embedding of the pebble memtable (`mem_table.go`) and level iterator
(`level_iter.go`).  User keys are byte sequences modelled as `List Nat` and
compared lexicographically (the default comparer).  Machine integers are
modelled as `Nat`/`Int` with explicit reductions modulo `2^32`/`2^64` where
Go overflow semantics matter.
-/

/-- Lexicographic comparison of byte sequences (the default `db.Comparer`). -/
def cmpBytes : List Nat → List Nat → Ordering
  | [], [] => Ordering.eq
  | [], _ :: _ => Ordering.lt
  | _ :: _, [] => Ordering.gt
  | a :: as, b :: bs =>
    if a < b then Ordering.lt
    else if b < a then Ordering.gt
    else cmpBytes as bs

/-- `db.InternalKey`: a user key together with the packed
`(seqNum << 8) | kind` trailer. -/
structure IKey where
  userKey : List Nat
  trailer : Nat
deriving DecidableEq

abbrev Val := List Nat

/-- `db.InternalKeyKindDelete` -/
def kindDelete : Nat := 0
/-- `db.InternalKeyKindSet` -/
def kindSet : Nat := 1
/-- `db.InternalKeyKindMerge` -/
def kindMerge : Nat := 2
/-- `db.InternalKeyKindRangeDelete` -/
def kindRangeDelete : Nat := 15

/-- `db.InternalKeySeqNumMax = 1<<56 - 1` -/
def seqNumMax : Nat := 2 ^ 56 - 1

/-- `db.InternalKeyRangeDeleteSentinel = (InternalKeySeqNumMax << 8) |
InternalKeyKindRangeDelete`. -/
def rangeDelSentinel : Nat := seqNumMax * 256 + kindRangeDelete

def U64 : Nat := 2 ^ 64

def U32 : Nat := 2 ^ 32

/-- `db.MakeInternalKey(ukey, seqNum, kind)`; the trailer arithmetic wraps at
64 bits as in Go. -/
def makeIKey (ukey : List Nat) (seqNum : Nat) (kind : Nat) : IKey :=
  ⟨ukey, (seqNum * 256 + kind) % U64⟩

/-- `InternalKey.Kind()`: the low 8 bits of the trailer. -/
def kindOf (k : IKey) : Nat := k.trailer % 256

/-- `InternalKey.SeqNum()`: the high 56 bits of the trailer. -/
def seqOf (k : IKey) : Nat := k.trailer / 256

/-- `db.InternalKeyCompare`: ascending by user key, then descending by
trailer. -/
def ikeyCmp (a b : IKey) : Ordering :=
  match cmpBytes a.userKey b.userKey with
  | Ordering.eq => compare b.trailer a.trailer
  | o => o

/-- `db.InvalidInternalKey` (zero-valued key). -/
def invalidInternalKey : IKey := ⟨[], 0⟩

/-!
### Memtable point lookup (`memTable.get`, part_000 lines 89-102)

The point skiplist is modelled as a list of internal-key/value pairs in
skiplist (internal-key ascending) order.

Modelled from the spec: the arenaskl iterator primitive is not part of the
sources; per spec section 4.1-4.2, `SeekGE(key)` positions the cursor at the
first entry whose internal key is at least `(key, MAX_SEQ, 0)`, i.e. the
first entry whose user key is `>= key` in the stored order.
-/
def sklSeekGE (skl : List (IKey × Val)) (key : List Nat) : Option (IKey × Val) :=
  skl.find? (fun e => decide (cmpBytes e.1.userKey key ≠ Ordering.lt))

/-- `memTable.get` (part_000 lines 89-102): seek to the first entry with user
key `>= key`; not found if there is none, if its user key differs from `key`,
or if its kind is DELETE; otherwise return its value.  `none` models
`db.ErrNotFound`. -/
def memGet (skl : List (IKey × Val)) (key : List Nat) : Option Val :=
  match sklSeekGE skl key with
  | none => none
  | some e =>
    if key = e.1.userKey then
      if kindOf e.1 = kindDelete then none else some e.2
    else none

/-!
### Memtable prepare (`memTable.prepare`, part_000 lines 108-125)

State relevant to `prepare`: the arena's size and capacity (bytes), the
`reserved` accounting field (uint32) and the reference count (int32).
-/
structure PMem where
  arenaSize : Nat
  arenaCap : Nat
  reserved : Nat
  refs : Int
deriving DecidableEq

structure PBatch where
  memTableSize : Nat
deriving DecidableEq

inductive PrepErr
  | arenaFull
deriving DecidableEq

/-- `memTable.prepare` (part_000 lines 108-125).  When `refs == 1` the
`reserved` field is first snapped to the arena's current size; then the batch
is rejected with `ErrArenaFull` if its memtable size exceeds
`capacity - reserved` (uint32 arithmetic); otherwise `reserved` grows by the
batch size and the memtable is referenced. -/
def memPrepare (m : PMem) (b : PBatch) : Option PrepErr × PMem :=
  let m1 := if m.refs = 1 then { m with reserved := m.arenaSize } else m
  let avail := (m1.arenaCap + U32 - m1.reserved) % U32
  if b.memTableSize > avail then (some PrepErr.arenaFull, m1)
  else
    (none,
      { m1 with
        reserved := (m1.reserved + b.memTableSize) % U32
        refs := m1.refs + 1 })

/-!
### Memtable apply and set (`memTable.apply`, part_000 lines 127-152;
`memTable.set`, part_001 lines 25-35)
-/

inductive SklErr
  | recordExists
deriving DecidableEq

/-- Ordered insertion into a skiplist, modelling `arenaskl.Skiplist.Add` /
`arenaskl.Inserter.Add`.

Modelled from the spec: the arenaskl primitive is not part of the sources;
per spec section 4.1 it is an ordered map on internal keys whose `Add` fails
on a duplicate internal key.  (Arena exhaustion, the other failure mode, is
not modelled here; the claims about `apply`/`set` only need that `Add` can
fail and then stores nothing.) -/
def sklInsert : List (IKey × Val) → IKey → Val → Except SklErr (List (IKey × Val))
  | [], k, v => Except.ok [(k, v)]
  | e :: es, k, v =>
    match ikeyCmp k e.1 with
    | Ordering.lt => Except.ok ((k, v) :: e :: es)
    | Ordering.eq => Except.error SklErr.recordExists
    | Ordering.gt =>
      match sklInsert es k v with
      | Except.ok t => Except.ok (e :: t)
      | Except.error err => Except.error err

/-- Memtable state touched by `apply`/`set`: the two skiplists plus the
tombstone count and the cached fragmented-tombstone slice
(`tombstones.vals`; `none` models the nil pointer). -/
structure MTable where
  skl : List (IKey × Val)
  rangeDelSkl : List (IKey × Val)
  tombstonesCount : Nat
  tombstonesVals : Option (List (IKey × Val))
deriving DecidableEq

/-- One batch entry as produced by `batch.iter()`: `(kind, ukey, value)`. -/
structure BEntry where
  kind : Nat
  ukey : List Nat
  value : Val
deriving DecidableEq

/-- A batch: its entry stream and the count stored in its header
(`batch.count()`), which the code trusts separately from the stream. -/
structure Batch where
  entries : List BEntry
  countField : Nat
deriving DecidableEq

inductive ApplyErr
  | skl (e : SklErr)
  /-- models the `panic("pebble: inconsistent batch count")` at line 149 -/
  | inconsistentBatchCount
deriving DecidableEq

/-- Result of the `apply` loop: the error (if any), the memtable, the final
value of `seqNum`, and the internal keys constructed for the processed
entries, in order (a ghost trace of the `db.MakeInternalKey` calls at line
136). -/
structure ApplyOut where
  err : Option SklErr
  mem : MTable
  seq : Nat
  keys : List IKey
deriving DecidableEq

/-- The loop of `memTable.apply` (part_000 lines 130-147).  For a RANGEDEL
entry the tombstone count is incremented and the cache cleared regardless of
whether the range-del skiplist insert succeeded (lines 138-140 run before the
error check at line 144). -/
def applyLoop (m : MTable) (seq : Nat) : List BEntry → ApplyOut
  | [] => ⟨none, m, seq, []⟩
  | e :: es =>
    let ikey := makeIKey e.ukey seq e.kind
    if e.kind = kindRangeDelete then
      let m1 :=
        { m with
          tombstonesCount := m.tombstonesCount + 1
          tombstonesVals := none }
      match sklInsert m.rangeDelSkl ikey e.value with
      | Except.error err => ⟨some err, m1, seq + 1, [ikey]⟩
      | Except.ok rd =>
        let out := applyLoop { m1 with rangeDelSkl := rd } (seq + 1) es
        ⟨out.err, out.mem, out.seq, ikey :: out.keys⟩
    else
      match sklInsert m.skl ikey e.value with
      | Except.error err => ⟨some err, m, seq + 1, [ikey]⟩
      | Except.ok s =>
        let out := applyLoop { m with skl := s } (seq + 1) es
        ⟨out.err, out.mem, out.seq, ikey :: out.keys⟩

/-- `memTable.apply` (part_000 lines 127-152): run the loop, then check
`seqNum == startSeqNum + batch.count()`; a mismatch is the fatal
"inconsistent batch count" panic. -/
def mtApply (m : MTable) (b : Batch) (seqNum : Nat) : Option ApplyErr × MTable :=
  match (applyLoop m seqNum b.entries).err with
  | some e => (some (ApplyErr.skl e), (applyLoop m seqNum b.entries).mem)
  | none =>
    if (applyLoop m seqNum b.entries).seq ≠ seqNum + b.countField then
      (some ApplyErr.inconsistentBatchCount, (applyLoop m seqNum b.entries).mem)
    else (none, (applyLoop m seqNum b.entries).mem)

/-- `memTable.set` (part_001 lines 25-35): the test-only direct write.  For a
RANGEDEL key the tombstone count is incremented and the cache cleared only
after a successful insert. -/
def mtSet (m : MTable) (key : IKey) (value : Val) : Option SklErr × MTable :=
  if kindOf key = kindRangeDelete then
    match sklInsert m.rangeDelSkl key value with
    | Except.error err => (some err, m)
    | Except.ok rd =>
      (none,
        { m with
          rangeDelSkl := rd
          tombstonesCount := m.tombstonesCount + 1
          tombstonesVals := none })
  else
    match sklInsert m.skl key value with
    | Except.error err => (some err, m)
    | Except.ok s => (none, { m with skl := s })

/-!
### Tombstone-cache publication (`memTable.newRangeDelIter`, part_000 lines
162-208)

One iteration of the publication loop at lines 188-204, as a function of the
pointers the two atomic loads observe.  `tombstonesPtr` is the slice loaded at
line 171 before fragmentation (nil on the build path), `oldPtr` the slice
loaded at line 189 inside the loop (what a concurrent publisher may have
installed), and `newT` the freshly built fragment slice.  The result is the
cache contents after the iteration, assuming the CAS succeeds when attempted;
the outer `none` models the nil-pointer dereference at line 194
(`oldTombstones := *(*[]rangedel.Tombstone)(tombstonesPtr)` runs with
`tombstonesPtr == nil` whenever `oldPtr != nil` on the build path). -/
def publishStep (tombstonesPtr : Option (List (IKey × Val)))
    (oldPtr : Option (List (IKey × Val))) (newT : List (IKey × Val)) :
    Option (Option (List (IKey × Val))) :=
  match oldPtr with
  | some old =>
    match tombstonesPtr with
    | none => none
    | some stale =>
      if newT.length < stale.length then some (some old)
      else some (some newT)
  | none => some (some newT)

/-- The publication rule as the spec states it (spec section 4.2 and the
comment at lines 191-193): compare the new slice's length with the length of
the currently cached slice (`oldPtr`), and overwrite only when the new one is
at least as long.  Used to state what the code diverges from. -/
def publishStepSpec (oldPtr : Option (List (IKey × Val)))
    (newT : List (IKey × Val)) : Option (List (IKey × Val)) :=
  match oldPtr with
  | some old => if newT.length < old.length then some old else some newT
  | none => some newT

/-!
### Binary search (`sort.Search` from the Go standard library, used by
`levelIter.findFileGE` / `findFileLT`, part_000 lines 438-462)
-/

/-- The loop of `sort.Search`: maintain `i ≤ j`, probe `(i+j)/2`.  The first
`Nat` argument is the loop's iteration budget: every iteration shrinks
`j - i` by at least one, so any budget of at least the initial `j - i` gives
the exact Go semantics (`sortSearch` passes `n` with `i = 0`, `j = n`). -/
def searchLoop (f : Nat → Bool) : Nat → Nat → Nat → Nat
  | 0, i, _ => i
  | fuel + 1, i, j =>
    if i < j then
      let m := (i + j) / 2
      if f m then searchLoop f fuel i m else searchLoop f fuel (m + 1) j
    else i

/-- `sort.Search(n, f)`. -/
def sortSearch (n : Nat) (f : Nat → Bool) : Nat := searchLoop f n 0 n

/-!
### Level iterator (`level_iter.go`, part_000 lines 379-728)

A file's point (and range-del) iterator is modelled as a cursor over a fixed
entry list.

Modelled from the spec: the per-sstable iterators returned by the
`tableNewIters` callback are external collaborators (spec section 6); they
are modelled as deterministic cursors satisfying the internal-iterator
contract (`First`/`Last`/`Next`/`Prev`/`SeekGE`/`SeekLT` position the cursor,
`Close` returns a fixed error).  The `tableNewIters` callback itself is
modelled by attaching to each file's metadata the iterators a call would
return.
-/

structure SubIter where
  entries : List (IKey × Val)
  /-- cursor; the iterator is valid iff `0 ≤ pos < entries.length` -/
  pos : Int
  /-- the (fixed) result of `Close()` -/
  closeErr : Option Nat
  /-- the (fixed) result of `Error()` -/
  errv : Option Nat
deriving DecidableEq

def SubIter.valid (it : SubIter) : Bool :=
  decide (0 ≤ it.pos ∧ it.pos < (it.entries.length : Int))

def SubIter.first (it : SubIter) : Bool × SubIter :=
  let it2 := { it with pos := 0 }
  (it2.valid, it2)

def SubIter.last (it : SubIter) : Bool × SubIter :=
  let it2 := { it with pos := (it.entries.length : Int) - 1 }
  (it2.valid, it2)

def SubIter.next (it : SubIter) : Bool × SubIter :=
  let it2 := { it with pos := it.pos + 1 }
  (it2.valid, it2)

def SubIter.prev (it : SubIter) : Bool × SubIter :=
  let it2 := { it with pos := it.pos - 1 }
  (it2.valid, it2)

def SubIter.seekGE (it : SubIter) (key : List Nat) : Bool × SubIter :=
  let it2 :=
    { it with pos := (it.entries.findIdx (fun e => cmpBytes e.1.userKey key ≠ Ordering.lt) : Int) }
  (it2.valid, it2)

def SubIter.seekLT (it : SubIter) (key : List Nat) : Bool × SubIter :=
  let it2 :=
    { it with pos := (it.entries.findIdx (fun e => cmpBytes e.1.userKey key ≠ Ordering.lt) : Int) - 1 }
  (it2.valid, it2)

def SubIter.key (it : SubIter) : IKey :=
  if 0 ≤ it.pos then
    match it.entries[it.pos.toNat]? with
    | some e => e.1
    | none => invalidInternalKey
  else invalidInternalKey

def SubIter.value (it : SubIter) : Option Val :=
  if 0 ≤ it.pos then
    match it.entries[it.pos.toNat]? with
    | some e => some e.2
    | none => none
  else none

/-- `fileMetadata` plus the data-level encoding of what `tableNewIters`
returns for this file: the point iterator's entries (or nil), its fixed
`Close`/`Error` results, the error of the `newIters` call itself, and the
range-del iterator (or nil). -/
structure FileMeta where
  smallest : IKey
  largest : IKey
  ptEntries : List (IKey × Val)
  ptNil : Bool
  ptCloseErr : Option Nat
  ptErrv : Option Nat
  newItersErr : Option Nat
  rdIter : Option SubIter
deriving DecidableEq

/-- The point iterator `tableNewIters` returns for `f` (nil if `ptNil`). -/
def FileMeta.newPointIter (f : FileMeta) : Option SubIter :=
  if f.ptNil then none else some ⟨f.ptEntries, -1, f.ptCloseErr, f.ptErrv⟩

/-- `levelIter` state (part_000 lines 398-411).  `slotInstalled` models
`l.rangeDelIter != nil` (whether `initRangeDel` installed the out-parameter
slot) and `slot` models `*l.rangeDelIter`. -/
structure LIter where
  files : List FileMeta
  index : Int
  boundary : Option IKey
  iter : Option SubIter
  slotInstalled : Bool
  slot : Option SubIter
  err : Option Nat
  lower : Option (List Nat)
  upper : Option (List Nat)
deriving DecidableEq

/-- `levelIter.init` plus `initRangeDel` (part_000 lines 424-436). -/
def lInit (files : List FileMeta) (lower upper : Option (List Nat))
    (slotInstalled : Bool) : LIter :=
  { files := files, index := -1, boundary := none, iter := none,
    slotInstalled := slotInstalled, slot := none, err := none,
    lower := lower, upper := upper }

/-- The file at `s.index`, when `s.index` is in range (Go would panic on an
out-of-range access; call sites guarantee the index is in range). -/
def fileAt? (s : LIter) : Option FileMeta :=
  if 0 ≤ s.index then s.files[s.index.toNat]? else none

/-- The search predicate of `levelIter.findFileGE` (part_000 lines 446-453). -/
def filePredGE (files : List FileMeta) (key : List Nat) (i : Nat) : Bool :=
  match files[i]? with
  | none => false
  | some f =>
    match cmpBytes f.largest.userKey key with
    | Ordering.gt => true
    | Ordering.eq => decide (f.largest.trailer ≠ rangeDelSentinel)
    | Ordering.lt => false

/-- `levelIter.findFileGE` (part_000 lines 438-454). -/
def findFileGE (files : List FileMeta) (key : List Nat) : Nat :=
  sortSearch files.length (filePredGE files key)

/-- `levelIter.findFileLT` (part_000 lines 456-462). -/
def findFileLT (files : List FileMeta) (key : List Nat) : Int :=
  (sortSearch files.length
    (fun i =>
      match files[i]? with
      | none => false
      | some f => decide (cmpBytes f.smallest.userKey key ≠ Ordering.lt)) : Int) - 1

/-- The `for ; ; index += dir` loop of `levelIter.loadFile` (part_000 lines
480-516).  `fuel` bounds the number of iterations; callers pass at least
`files.length + 1`, which the loop can never exhaust since each iteration
moves `index` one step closer to the end of the file slice. -/
def loadFileLoop (s : LIter) (index : Int) (dir : Int) : Nat → Bool × LIter
  | 0 => (false, s)
  | fuel + 1 =>
    if index < 0 ∨ (s.files.length : Int) ≤ index then
      (false, { s with index := index })
    else
      match s.files[index.toNat]? with
      | none => (false, { s with index := index })
      | some f =>
        if (match s.lower with
            | some lb => decide (cmpBytes f.largest.userKey lb = Ordering.lt)
            | none => false) then
          if dir < 0 then (false, { s with index := index })
          else loadFileLoop { s with index := index } (index + dir) dir fuel
        else if (match s.upper with
            | some ub => decide (cmpBytes f.smallest.userKey ub ≠ Ordering.lt)
            | none => false) then
          if dir > 0 then (false, { s with index := index })
          else loadFileLoop { s with index := index } (index + dir) dir fuel
        else if f.newItersErr ≠ none ∨ f.newPointIter = none then
          (false, { s with index := index, iter := f.newPointIter, err := f.newItersErr })
        else if s.slotInstalled then
          (true, { s with index := index, iter := f.newPointIter, err := f.newItersErr, slot := f.rdIter })
        else
          (true, { s with index := index, iter := f.newPointIter, err := f.newItersErr })

/-- `levelIter.loadFile` (part_000 lines 464-517).  Clears `boundary`; if the
requested index is current, reports whether a point iterator is open;
otherwise closes the open point iterator (keeping it and recording the error
if `Close` fails, exactly as the source does), nulls the range-del slot, and
runs the scan loop. -/
def loadFile (s : LIter) (index : Int) (dir : Int) (fuel : Nat) : Bool × LIter :=
  if s.index = index then (s.iter.isSome, { s with boundary := none })
  else
    match s.iter with
    | some it =>
      match it.closeErr with
      | some e => (false, { s with boundary := none, err := some e })
      | none =>
        if s.slotInstalled then
          loadFileLoop { s with boundary := none, iter := none, slot := none }
            index dir fuel
        else
          loadFileLoop { s with boundary := none, iter := none } index dir fuel
    | none =>
      if s.slotInstalled then
        loadFileLoop { s with boundary := none, slot := none } index dir fuel
      else
        loadFileLoop { s with boundary := none } index dir fuel

/-- The boundary key `skipEmptyFileForward` materializes at the current file
when the range-del slot is installed and the file's largest key is a RANGEDEL
(part_000 lines 638-645); `none` when no boundary is materialized. -/
def forwardBoundary (s : LIter) : Option IKey :=
  if s.slotInstalled then
    match fileAt? s with
    | some f =>
      if kindOf f.largest = kindRangeDelete then some f.largest else none
    | none => none
  else none

/-- As `forwardBoundary`, for `skipEmptyFileBackward` and the file's smallest
key (part_000 lines 664-671). -/
def backwardBoundary (s : LIter) : Option IKey :=
  if s.slotInstalled then
    match fileAt? s with
    | some f =>
      if kindOf f.smallest = kindRangeDelete then some f.smallest else none
    | none => none
  else none

/-- `levelIter.skipEmptyFileForward` (part_000 lines 631-655).  The `fuel`
argument bounds the loop as in `loadFileLoop`.  When no boundary is
materialized and the slot is installed, the slot is nulled before moving to
the next file (line 646). -/
def skipEmptyForward : LIter → Nat → Bool × LIter
  | s, 0 => (false, s)
  | s, fuel + 1 =>
    match s.iter with
    | none => (false, s)
    | some it =>
      match it.closeErr with
      | some e => (false, { s with err := some e })
      | none =>
        match forwardBoundary s with
        | some b => (true, { s with iter := none, boundary := some b })
        | none =>
          match loadFile
              (if s.slotInstalled then { s with iter := none, slot := none }
               else { s with iter := none })
              (s.index + 1) 1 fuel with
          | (false, u) => (false, u)
          | (true, u) =>
            match u.iter with
            | some it2 =>
              if (SubIter.first it2).1 then
                (true, { u with iter := some (SubIter.first it2).2 })
              else skipEmptyForward { u with iter := some (SubIter.first it2).2 } fuel
            | none => (false, u)

/-- `levelIter.skipEmptyFileBackward` (part_000 lines 657-681). -/
def skipEmptyBackward : LIter → Nat → Bool × LIter
  | s, 0 => (false, s)
  | s, fuel + 1 =>
    match s.iter with
    | none => (false, s)
    | some it =>
      match it.closeErr with
      | some e => (false, { s with err := some e })
      | none =>
        match backwardBoundary s with
        | some b => (true, { s with iter := none, boundary := some b })
        | none =>
          match loadFile
              (if s.slotInstalled then { s with iter := none, slot := none }
               else { s with iter := none })
              (s.index - 1) (-1) fuel with
          | (false, u) => (false, u)
          | (true, u) =>
            match u.iter with
            | some it2 =>
              if (SubIter.last it2).1 then
                (true, { u with iter := some (SubIter.last it2).2 })
              else skipEmptyBackward { u with iter := some (SubIter.last it2).2 } fuel
            | none => (false, u)

/-- Shared continuation after a forward `loadFile`: position the freshly
loaded point iterator at its first entry and fall back to
`skipEmptyFileForward` when it is empty (the bodies of `First` and the two
forward branches of `Next` all end this way in the source). -/
def forwardFromLoad (r : Bool × LIter) (fuel : Nat) : Bool × LIter :=
  if r.1 = false then (false, r.2)
  else
    match r.2.iter with
    | some it =>
      if (SubIter.first it).1 then
        (true, { r.2 with iter := some (SubIter.first it).2 })
      else skipEmptyForward { r.2 with iter := some (SubIter.first it).2 } fuel
    | none => (false, r.2)

/-- Shared continuation after a backward `loadFile` (`Last`, `SeekLT`,
backward branches of `Prev`). -/
def backwardFromLoad (r : Bool × LIter) (fuel : Nat) : Bool × LIter :=
  if r.1 = false then (false, r.2)
  else
    match r.2.iter with
    | some it =>
      if (SubIter.last it).1 then
        (true, { r.2 with iter := some (SubIter.last it).2 })
      else skipEmptyBackward { r.2 with iter := some (SubIter.last it).2 } fuel
    | none => (false, r.2)

/-- `levelIter.SeekGE` (part_000 lines 519-529), with the seek delegated to
the loaded file iterator. -/
def lSeekGE (s : LIter) (key : List Nat) (fuel : Nat) : Bool × LIter :=
  if (loadFile s (findFileGE s.files key : Int) 1 fuel).1 = false then
    (false, (loadFile s (findFileGE s.files key : Int) 1 fuel).2)
  else
    match (loadFile s (findFileGE s.files key : Int) 1 fuel).2.iter with
    | some it =>
      if (SubIter.seekGE it key).1 then
        (true, { (loadFile s (findFileGE s.files key : Int) 1 fuel).2 with
                 iter := some (SubIter.seekGE it key).2 })
      else
        skipEmptyForward
          { (loadFile s (findFileGE s.files key : Int) 1 fuel).2 with
            iter := some (SubIter.seekGE it key).2 } fuel
    | none => (false, (loadFile s (findFileGE s.files key : Int) 1 fuel).2)

/-- `levelIter.SeekLT` (part_000 lines 531-541). -/
def lSeekLT (s : LIter) (key : List Nat) (fuel : Nat) : Bool × LIter :=
  if (loadFile s (findFileLT s.files key) (-1) fuel).1 = false then
    (false, (loadFile s (findFileLT s.files key) (-1) fuel).2)
  else
    match (loadFile s (findFileLT s.files key) (-1) fuel).2.iter with
    | some it =>
      if (SubIter.seekLT it key).1 then
        (true, { (loadFile s (findFileLT s.files key) (-1) fuel).2 with
                 iter := some (SubIter.seekLT it key).2 })
      else
        skipEmptyBackward
          { (loadFile s (findFileLT s.files key) (-1) fuel).2 with
            iter := some (SubIter.seekLT it key).2 } fuel
    | none => (false, (loadFile s (findFileLT s.files key) (-1) fuel).2)

/-- `levelIter.First` (part_000 lines 543-553). -/
def lFirst (s : LIter) (fuel : Nat) : Bool × LIter :=
  forwardFromLoad (loadFile s 0 1 fuel) fuel

/-- `levelIter.Last` (part_000 lines 555-565). -/
def lLast (s : LIter) (fuel : Nat) : Bool × LIter :=
  backwardFromLoad (loadFile s ((s.files.length : Int) - 1) (-1) fuel) fuel

/-- `levelIter.Next` (part_000 lines 567-597). -/
def lNext (s : LIter) (fuel : Nat) : Bool × LIter :=
  if s.err ≠ none then (false, s)
  else
    match s.iter with
    | none =>
      match s.boundary with
      | some _ => forwardFromLoad (loadFile s (s.index + 1) 1 fuel) fuel
      | none =>
        if s.index = -1 then forwardFromLoad (loadFile s 0 1 fuel) fuel
        else (false, s)
    | some it =>
      if (SubIter.next it).1 then (true, { s with iter := some (SubIter.next it).2 })
      else skipEmptyForward { s with iter := some (SubIter.next it).2 } fuel

/-- `levelIter.Prev` (part_000 lines 599-629). -/
def lPrev (s : LIter) (fuel : Nat) : Bool × LIter :=
  if s.err ≠ none then (false, s)
  else
    match s.iter with
    | none =>
      match s.boundary with
      | some _ => backwardFromLoad (loadFile s (s.index - 1) (-1) fuel) fuel
      | none =>
        if s.index = (s.files.length : Int) then
          backwardFromLoad (loadFile s ((s.files.length : Int) - 1) (-1) fuel) fuel
        else (false, s)
    | some it =>
      if (SubIter.prev it).1 then (true, { s with iter := some (SubIter.prev it).2 })
      else skipEmptyBackward { s with iter := some (SubIter.prev it).2 } fuel

/-- `levelIter.Key` (part_000 lines 683-691). -/
def lKey (s : LIter) : IKey :=
  match s.iter with
  | none =>
    match s.boundary with
    | some b => b
    | none => invalidInternalKey
  | some it => it.key

/-- `levelIter.Value` (part_000 lines 693-698); `none` models a nil slice. -/
def lValue (s : LIter) : Option Val :=
  match s.iter with
  | none => none
  | some it => it.value

/-- `levelIter.Valid` (part_000 lines 700-705). -/
def lValid (s : LIter) : Bool :=
  match s.iter with
  | none => s.boundary.isSome
  | some it => it.valid

/-- `levelIter.Error` (part_000 lines 707-712). -/
def lError (s : LIter) : Option Nat :=
  if s.err ≠ none ∨ s.iter = none then s.err
  else
    match s.iter with
    | some it => it.errv
    | none => none

/-- The first step of `levelIter.Close` (part_000 lines 715-718): close the
open point iterator, storing its result into `err`. -/
def lCloseIter (s : LIter) : LIter :=
  match s.iter with
  | some it => { s with err := it.closeErr, iter := none }
  | none => s

/-- The second step of `levelIter.Close` (part_000 lines 719-726): close the
range-del slot's iterator, keeping an earlier error, and null the slot. -/
def lCloseSlot (s : LIter) : LIter :=
  if s.slotInstalled then
    match s.slot with
    | some t =>
      match t.closeErr with
      | some e =>
        if s.err = none then { s with err := some e, slot := none }
        else { s with slot := none }
      | none => { s with slot := none }
    | none => { s with slot := none }
  else s

/-- `levelIter.Close` (part_000 lines 714-728). -/
def lClose (s : LIter) : Option Nat × LIter :=
  ((lCloseSlot (lCloseIter s)).err, lCloseSlot (lCloseIter s))

/-- The level-iterator operations a client can perform (each loop-running
operation carries its fuel). -/
inductive LOp
  | seekGE (key : List Nat) (fuel : Nat)
  | seekLT (key : List Nat) (fuel : Nat)
  | first (fuel : Nat)
  | last (fuel : Nat)
  | next (fuel : Nat)
  | prev (fuel : Nat)
  | close

def lStep (s : LIter) : LOp → LIter
  | LOp.seekGE k fuel => (lSeekGE s k fuel).2
  | LOp.seekLT k fuel => (lSeekLT s k fuel).2
  | LOp.first fuel => (lFirst s fuel).2
  | LOp.last fuel => (lLast s fuel).2
  | LOp.next fuel => (lNext s fuel).2
  | LOp.prev fuel => (lPrev s fuel).2
  | LOp.close => (lClose s).2

def lRun (s : LIter) : List LOp → LIter
  | [] => s
  | op :: ops => lRun (lStep s op) ops

/-!
### Concrete fixtures used by witness theorems
-/

/-- A point skiplist holding `[2]` at seq 5 SET (trailer 1281) and seq 3
DELETE (trailer 768), in internal-key order. -/
def wSkl : List (IKey × Val) := [(⟨[2], 1281⟩, [9]), (⟨[2], 768⟩, [8])]

/-- A memtable whose range-del skiplist already holds the key a RANGEDEL
insert at seq 5 would use. -/
def wMemR : MTable := ⟨[], [(makeIKey [3] 5 15, [4])], 1, some []⟩

/-- A batch with a single RANGEDEL entry. -/
def wRdBatch : Batch := ⟨[⟨15, [3], [4]⟩], 1⟩

/-- A batch with a single SET entry. -/
def wSetBatch : Batch := ⟨[⟨1, [7], [9]⟩], 1⟩

/-- A file whose largest key is the sentinel at user key `[2]`. -/
def wSentFile : FileMeta :=
  ⟨⟨[1], 257⟩, ⟨[2], rangeDelSentinel⟩, [], false, none, none, none, none⟩

/-- A file containing real keys at `[2]`..`[3]`. -/
def wRealFile : FileMeta :=
  ⟨⟨[2], 1000⟩, ⟨[3], 257⟩, [], false, none, none, none, none⟩

/-- A one-entry file whose smallest and largest keys are the entry itself. -/
def wFileA : FileMeta :=
  ⟨⟨[1], 257⟩, ⟨[1], 257⟩, [(⟨[1], 257⟩, [42])], false, none, none, none, none⟩

/-- An (empty) range-del iterator. -/
def wRdIter : SubIter := ⟨[], -1, none, none⟩

/-- A point iterator positioned on the single entry of `wBoundaryFile`. -/
def wPtIter : SubIter := ⟨[(⟨[1], 257⟩, [42])], 0, none, none⟩

/-- A file whose largest key is a RANGEDEL boundary `([2], seq 4, kind 15)`. -/
def wBoundaryFile : FileMeta :=
  ⟨⟨[1], 257⟩, ⟨[2], 4 * 256 + 15⟩, [(⟨[1], 257⟩, [42])], false, none, none, none,
    some wRdIter⟩

/-- A level iterator positioned on the last entry of `wBoundaryFile`, with the
range-del slot installed and populated. -/
def wBoundaryState : LIter :=
  { files := [wBoundaryFile]
    index := 0
    boundary := none
    iter := some wPtIter
    slotInstalled := true
    slot := some wRdIter
    err := none
    lower := none
    upper := none }

/-- A level iterator carrying a sticky error. -/
def wErrState : LIter :=
  { files := [wFileA]
    index := 0
    boundary := none
    iter := none
    slotInstalled := false
    slot := none
    err := some 7
    lower := none
    upper := none }

/-- A level iterator exhausted past the end (`index = len(files)`). -/
def wPastEndState : LIter :=
  { lInit [wFileA] none none false with index := 1 }

end Pebble

namespace Pebble

/-!
## Theorems

### Byte-comparison order facts
-/

theorem cmpBytes_eq_iff : ∀ a b : List Nat, cmpBytes a b = Ordering.eq ↔ a = b := by
  intro a
  induction a with
  | nil => intro b; cases b <;> simp [cmpBytes]
  | cons x xs ih =>
    intro b
    cases b with
    | nil => simp [cmpBytes]
    | cons y ys =>
      simp only [cmpBytes]
      by_cases h1 : x < y
      · simp only [if_pos h1]
        constructor
        · intro h; cases h
        · intro h
          injection h with h h2
          omega
      · by_cases h2 : y < x
        · simp only [if_neg h1, if_pos h2]
          constructor
          · intro h; cases h
          · intro h
            injection h with h h2
            omega
        · have hxy : x = y := by omega
          subst hxy
          simp only [if_neg h1, if_neg h2, ih, List.cons.injEq, true_and]

theorem cmpBytes_refl (a : List Nat) : cmpBytes a a = Ordering.eq :=
  (cmpBytes_eq_iff a a).mpr rfl

theorem cmpBytes_gt_iff : ∀ a b : List Nat,
    cmpBytes a b = Ordering.gt ↔ cmpBytes b a = Ordering.lt := by
  intro a
  induction a with
  | nil => intro b; cases b <;> simp [cmpBytes]
  | cons x xs ih =>
    intro b
    cases b with
    | nil => simp [cmpBytes]
    | cons y ys =>
      simp only [cmpBytes]
      rcases Nat.lt_trichotomy x y with h | h | h
      · have h2 : ¬ y < x := by omega
        simp [h, h2]
      · subst h
        have h2 : ¬ x < x := by omega
        simp [h2, ih]
      · have h2 : ¬ x < y := by omega
        simp [h, h2]

theorem cmpBytes_lt_trans : ∀ a b c : List Nat,
    cmpBytes a b = Ordering.lt → cmpBytes b c = Ordering.lt →
    cmpBytes a c = Ordering.lt := by
  intro a
  induction a with
  | nil =>
    intro b c hab hbc
    cases b with
    | nil => cases hab
    | cons y ys =>
      cases c with
      | nil => cases hbc
      | cons z zs => rfl
  | cons x xs ih =>
    intro b c hab hbc
    cases b with
    | nil => cases hab
    | cons y ys =>
      cases c with
      | nil => cases hbc
      | cons z zs =>
        simp only [cmpBytes] at hab hbc ⊢
        by_cases hxy : x < y
        · by_cases hyz : y < z
          · simp [show x < z by omega]
          · by_cases hzy : z < y
            · simp [hyz, hzy] at hbc
            · have : y = z := by omega
              subst this
              simp [hxy]
        · by_cases hyx : y < x
          · simp [hxy, hyx] at hab
          · have : x = y := by omega
            subst this
            simp only [if_neg hxy, if_neg hyx] at hab
            by_cases hyz : x < z
            · simp [hyz]
            · by_cases hzy : z < x
              · simp [hyz, hzy] at hbc
              · have : x = z := by omega
                subst this
                simp only [if_neg hyz, if_neg hzy] at hbc ⊢
                exact ih ys zs hab hbc

theorem trailer_lt_of_seq_lt {a b : IKey} (h : seqOf a < seqOf b) :
    a.trailer < b.trailer := by
  have ha := Nat.div_add_mod a.trailer 256
  have hb := Nat.div_add_mod b.trailer 256
  have ha2 : a.trailer % 256 < 256 := Nat.mod_lt _ (by omega)
  unfold seqOf at h
  omega

/-!
### C1: memtable get
-/

/-- In a sorted point skiplist, the seek lands exactly on the maximal-seq
entry for the sought user key. -/
theorem sklSeekGE_max (skl : List (IKey × Val)) (k : List Nat) (e : IKey × Val)
    (hs : skl.Pairwise fun a b => ikeyCmp a.1 b.1 = Ordering.lt)
    (he : e ∈ skl) (hek : e.1.userKey = k)
    (hmax : ∀ x ∈ skl, x.1.userKey = k → x = e ∨ seqOf x.1 < seqOf e.1) :
    sklSeekGE skl k = some e := by
  induction skl with
  | nil => cases he
  | cons a l ih =>
    rw [List.pairwise_cons] at hs
    obtain ⟨ha, hl⟩ := hs
    by_cases hp : cmpBytes a.1.userKey k ≠ Ordering.lt
    · have hfind : sklSeekGE (a :: l) k = some a := by
        unfold sklSeekGE
        exact List.find?_cons_of_pos _ (by simpa using hp)
      rw [hfind]
      cases he with
      | head => rfl
      | tail _ hel =>
        exfalso
        have hlt := ha e hel
        unfold ikeyCmp at hlt
        rcases hcmp : cmpBytes a.1.userKey e.1.userKey with _ | _ | _ <;>
          rw [hcmp] at hlt
        · rw [hek] at hcmp
          exact hp hcmp
        · have hauser : a.1.userKey = e.1.userKey := (cmpBytes_eq_iff _ _).mp hcmp
          have htr : e.1.trailer < a.1.trailer := by
            have := Nat.compare_eq_lt.mp hlt
            exact this
          rcases hmax a (List.mem_cons_self a l) (hauser.trans hek) with hae | hseq
          · rw [hae] at htr
            omega
          · have := trailer_lt_of_seq_lt hseq
            omega
        · cases hlt
    · push_neg at hp
      have hfind : sklSeekGE (a :: l) k = sklSeekGE l k := by
        unfold sklSeekGE
        exact List.find?_cons_of_neg _ (by simpa using hp)
      rw [hfind]
      have hel : e ∈ l := by
        cases he with
        | head =>
          exfalso
          rw [hek, cmpBytes_refl] at hp
          cases hp
        | tail _ hel => exact hel
      exact ih hl hel (fun x hx hxk => hmax x (List.mem_cons_of_mem _ hx) hxk)

/-- Claim C1: for every (sorted) memtable point skiplist whose entries for
user key `k` carry kinds in {SET, DELETE, MERGE} and pairwise-distinct
sequence numbers, `get(k)` returns the value of the greatest-seq entry when
its kind is SET or MERGE, and `NotFound` when no entry for `k` exists or the
greatest-seq entry is a DELETE. -/
theorem c1_memtable_get (skl : List (IKey × Val)) (k : List Nat)
    (hs : skl.Pairwise fun a b => ikeyCmp a.1 b.1 = Ordering.lt) :
    ((∀ e ∈ skl, e.1.userKey ≠ k) → memGet skl k = none) ∧
    (∀ e ∈ skl, e.1.userKey = k →
      (∀ x ∈ skl, x.1.userKey = k → x = e ∨ seqOf x.1 < seqOf e.1) →
      (∀ x ∈ skl, x.1.userKey = k →
        kindOf x.1 = kindDelete ∨ kindOf x.1 = kindSet ∨ kindOf x.1 = kindMerge) →
      ((kindOf e.1 = kindDelete → memGet skl k = none) ∧
       (kindOf e.1 ≠ kindDelete →
         memGet skl k = some e.2 ∧ (kindOf e.1 = kindSet ∨ kindOf e.1 = kindMerge)))) := by
  constructor
  · intro hne
    unfold memGet
    rcases hfind : sklSeekGE skl k with _ | f
    · rfl
    · have hmem : f ∈ skl := List.mem_of_find?_eq_some hfind
      have : k ≠ f.1.userKey := fun h => hne f hmem h.symm
      simp [this]
  · intro e he hek hmaxseq hkinds
    have hfind := sklSeekGE_max skl k e hs he hek hmaxseq
    have hget : memGet skl k =
        (if kindOf e.1 = kindDelete then none else some e.2) := by
      unfold memGet
      rw [hfind]
      show (if k = e.1.userKey then
        if kindOf e.1 = kindDelete then none else some e.2 else none) = _
      rw [if_pos hek.symm]
    constructor
    · intro hdel
      rw [hget, if_pos hdel]
    · intro hndel
      refine ⟨by rw [hget, if_neg hndel], ?_⟩
      rcases hkinds e he hek with h | h | h
      · exact absurd h hndel
      · exact Or.inl h
      · exact Or.inr h

/-- Witness for C1 on the concrete skiplist `wSkl`: the newest entry for
`[2]` is the seq-5 SET, whose value `get` returns. -/
theorem c1_witness : memGet wSkl [2] = some [9] ∧ memGet wSkl [5] = none := by
  have h := c1_memtable_get wSkl [2] (by decide)
  have h2 := (h.2 (⟨⟨[2], 1281⟩, [9]⟩) (by decide) rfl (by decide) (by decide)).2 (by decide)
  refine ⟨h2.1, ?_⟩
  have h3 := c1_memtable_get wSkl [5] (by decide)
  exact h3.1 (by decide)

/-!
### C2: prepare on a too-large batch
-/

/-- Counterexample to claim C2 as stated: with `refs = 1`, `reserved = 0` and
a full arena (`size = capacity = 10`), a batch of memtable size 11 exceeds
`capacity - reserved`, and `prepare` returns `ArenaFull` — but the state is
mutated: `reserved` was first snapped from 0 to `arena.Size() = 10` (part_000
lines 110-115 run before the capacity check). -/
theorem c2_counterexample :
    (memPrepare ⟨10, 10, 0, 1⟩ ⟨11⟩).1 = some PrepErr.arenaFull ∧
    (11 : Nat) > (10 + U32 - 0) % U32 ∧
    ¬ (memPrepare ⟨10, 10, 0, 1⟩ ⟨11⟩).2 = ⟨10, 10, 0, 1⟩ := by decide

/-- Claim C2 (amended): when the batch's memtable size exceeds the arena
capacity minus the effective reserved bytes — `reserved` snapped to
`arena.Size()` when `refs == 1`, unchanged otherwise — `prepare` returns
`ArenaFull`; `refs` is never mutated, and the only state change is that snap
of `reserved`. -/
theorem c2_prepare_arena_full (m : PMem) (b : PBatch)
    (h : b.memTableSize >
      (m.arenaCap + U32 - (if m.refs = 1 then m.arenaSize else m.reserved)) % U32) :
    memPrepare m b =
      (some PrepErr.arenaFull,
        { m with reserved := if m.refs = 1 then m.arenaSize else m.reserved }) := by
  by_cases hr : m.refs = 1
  · simp only [memPrepare, if_pos hr]
    rw [if_pos (by simpa [if_pos hr] using h)]
  · simp only [memPrepare, if_neg hr]
    rw [if_pos (by simpa [if_neg hr] using h)]

/-- Witness for the amended C2 at the counterexample input. -/
theorem c2_witness :
    memPrepare ⟨10, 10, 0, 1⟩ ⟨11⟩ = (some PrepErr.arenaFull, ⟨10, 10, 10, 1⟩) :=
  c2_prepare_arena_full ⟨10, 10, 0, 1⟩ ⟨11⟩ (by decide)

/-!
### C3: findFileGE binary search
-/

theorem searchLoop_spec (f : Nat → Bool) (n : Nat)
    (hmono : ∀ a b, a ≤ b → b < n → f a = true → f b = true) :
    ∀ fuel i j, j - i ≤ fuel → j ≤ n → i ≤ j →
      i ≤ searchLoop f fuel i j ∧ searchLoop f fuel i j ≤ j ∧
      (∀ k, i ≤ k → k < searchLoop f fuel i j → f k = false) ∧
      (searchLoop f fuel i j < j → f (searchLoop f fuel i j) = true) := by
  intro fuel
  induction fuel with
  | zero =>
    intro i j hfuel hn hij
    have hije : i = j := by omega
    subst hije
    refine ⟨le_refl _, le_refl _, ?_, ?_⟩
    · intro k h1 h2
      exfalso
      simp only [searchLoop] at h2
      omega
    · intro h
      exfalso
      simp only [searchLoop] at h
      omega
  | succ fuel ih =>
    intro i j hfuel hn hij
    by_cases hij2 : i < j
    · have hmlt : (i + j) / 2 < j := by omega
      have hmge : i ≤ (i + j) / 2 := by omega
      by_cases hfm : f ((i + j) / 2) = true
      · have hred : searchLoop f (fuel + 1) i j = searchLoop f fuel i ((i + j) / 2) := by
          simp only [searchLoop, if_pos hij2, hfm, if_true]
        obtain ⟨h1, h2, h3, h4⟩ :=
          ih i ((i + j) / 2) (by omega) (by omega) hmge
        rw [hred]
        refine ⟨h1, by omega, h3, ?_⟩
        intro hrj
        rcases Nat.lt_or_ge (searchLoop f fuel i ((i + j) / 2)) ((i + j) / 2) with hrm | hrm
        · exact h4 hrm
        · have : searchLoop f fuel i ((i + j) / 2) = (i + j) / 2 := by omega
          rw [this]
          exact hfm
      · have hred : searchLoop f (fuel + 1) i j = searchLoop f fuel ((i + j) / 2 + 1) j := by
          simp only [searchLoop, if_pos hij2, hfm, if_false]
          rw [if_neg (by simp [hfm])]
        obtain ⟨h1, h2, h3, h4⟩ :=
          ih ((i + j) / 2 + 1) j (by omega) hn (by omega)
        rw [hred]
        refine ⟨by omega, h2, ?_, h4⟩
        intro k hk1 hk2
        rcases Nat.lt_or_ge k ((i + j) / 2 + 1) with hkm | hkm
        · rcases hbk : f k with _ | _
          · rfl
          · exfalso
            have := hmono k ((i + j) / 2) (by omega) (by omega) hbk
            rw [this] at hfm
            exact hfm rfl
        · exact h3 k hkm hk2
    · have hije : i = j := by omega
      subst hije
      have hred : searchLoop f (fuel + 1) i i = i := by
        simp only [searchLoop, if_neg hij2]
      rw [hred]
      refine ⟨le_refl _, le_refl _, ?_, ?_⟩
      · intro k h1 h2
        exfalso
        omega
      · intro h
        exfalso
        omega

/-- The search predicate, spelled out for a file present at index `i`. -/
theorem filePredGE_eq_true_iff (files : List FileMeta) (k : List Nat) (i : Nat)
    (fi : FileMeta) (hfi : files[i]? = some fi) :
    filePredGE files k i = true ↔
      (cmpBytes fi.largest.userKey k = Ordering.gt ∨
       (cmpBytes fi.largest.userKey k = Ordering.eq ∧
         fi.largest.trailer ≠ rangeDelSentinel)) := by
  unfold filePredGE
  rw [hfi]
  rcases h : cmpBytes fi.largest.userKey k with _ | _ | _ <;> simp [h]

/-- One monotonicity step of the search predicate along the sorted file
slice. -/
theorem filePredGE_step (files : List FileMeta) (k : List Nat) (i : Nat)
    (fi fj : FileMeta)
    (hfi : files[i]? = some fi) (hfj : files[i + 1]? = some fj)
    (hrel : ikeyCmp fi.largest fj.largest ≠ Ordering.gt)
    (htri : fi.largest.trailer ≤ rangeDelSentinel)
    (hp : filePredGE files k i = true) : filePredGE files k (i + 1) = true := by
  rw [filePredGE_eq_true_iff files k i fi hfi] at hp
  rw [filePredGE_eq_true_iff files k (i + 1) fj hfj]
  unfold ikeyCmp at hrel
  rcases hp with hgt | ⟨heq, hne⟩
  · have hk : cmpBytes k fi.largest.userKey = Ordering.lt := (cmpBytes_gt_iff _ _).mp hgt
    rcases hcj : cmpBytes fi.largest.userKey fj.largest.userKey with _ | _ | _ <;>
      rw [hcj] at hrel
    · exact Or.inl ((cmpBytes_gt_iff _ _).mpr (cmpBytes_lt_trans _ _ _ hk hcj))
    · have huj := (cmpBytes_eq_iff _ _).mp hcj
      rw [← huj]
      exact Or.inl hgt
    · exact absurd rfl hrel
  · have huser : fi.largest.userKey = k := (cmpBytes_eq_iff _ _).mp heq
    rcases hcj : cmpBytes fi.largest.userKey fj.largest.userKey with _ | _ | _ <;>
      rw [hcj] at hrel
    · refine Or.inl ((cmpBytes_gt_iff _ _).mpr ?_)
      rw [← huser]
      exact hcj
    · have huj := (cmpBytes_eq_iff _ _).mp hcj
      refine Or.inr ⟨by rw [← huj]; exact heq, ?_⟩
      have hle : fj.largest.trailer ≤ fi.largest.trailer := by
        by_contra hgt2
        push_neg at hgt2
        exact hrel (Nat.compare_eq_gt.mpr hgt2)
      intro hsent
      rw [hsent] at hle
      have : fi.largest.trailer = rangeDelSentinel := by omega
      exact hne this
    · exact absurd rfl hrel

/-- Claim C3: on a sorted level slice (largest keys non-decreasing in
internal-key order, trailers at most the sentinel), `findFileGE(k)` returns
the index of the first file whose largest user key is strictly greater than
`k`, or equal to `k` with a non-sentinel trailer; in particular it never
lands on a file whose largest key is exactly `(k, range-del sentinel)`. -/
theorem c3_find_file_ge (files : List FileMeta) (k : List Nat)
    (hsort : List.Chain' (fun a b => ikeyCmp a.largest b.largest ≠ Ordering.gt) files)
    (htrail : ∀ f ∈ files, f.largest.trailer ≤ rangeDelSentinel) :
    findFileGE files k ≤ files.length ∧
    (∀ j fj, files[j]? = some fj → j < findFileGE files k →
       ¬ (cmpBytes fj.largest.userKey k = Ordering.gt ∨
          (cmpBytes fj.largest.userKey k = Ordering.eq ∧
            fj.largest.trailer ≠ rangeDelSentinel))) ∧
    (∀ fj, files[findFileGE files k]? = some fj →
       (cmpBytes fj.largest.userKey k = Ordering.gt ∨
        (cmpBytes fj.largest.userKey k = Ordering.eq ∧
          fj.largest.trailer ≠ rangeDelSentinel)) ∧
       fj.largest ≠ ⟨k, rangeDelSentinel⟩) := by
  unfold findFileGE sortSearch
  have hchain := List.chain'_iff_get.mp hsort
  have hmono : ∀ a b, a ≤ b → b < files.length →
      filePredGE files k a = true → filePredGE files k b = true := by
    intro a b hab
    induction b, hab using Nat.le_induction with
    | base => intro _ hp; exact hp
    | succ b hab ih =>
      intro hb hp
      have hb2 : b < files.length := by omega
      refine filePredGE_step files k b (files.get ⟨b, hb2⟩) (files.get ⟨b + 1, hb⟩)
        ?_ ?_ (hchain b (by omega)) ?_ (ih hb2 hp)
      · simp [List.getElem?_eq_getElem hb2]
      · simp [List.getElem?_eq_getElem hb]
      · exact htrail _ (List.get_mem files b hb2)
  obtain ⟨h1, h2, h3, h4⟩ := searchLoop_spec (filePredGE files k) files.length hmono
    files.length 0 files.length (by omega) (le_refl _) (Nat.zero_le _)
  refine ⟨h2, ?_, ?_⟩
  · intro j fj hfj hjr
    intro hprop
    have hfalse := h3 j (Nat.zero_le _) hjr
    have htrue := (filePredGE_eq_true_iff files k j fj hfj).mpr hprop
    rw [hfalse] at htrue
    cases htrue
  · intro fj hfj
    have hrn : searchLoop (filePredGE files k) files.length 0 files.length <
        files.length := by
      by_contra hge
      push_neg at hge
      rw [List.getElem?_eq_none hge] at hfj
      cases hfj
    have hp := h4 hrn
    rw [filePredGE_eq_true_iff files k _ fj hfj] at hp
    refine ⟨hp, ?_⟩
    intro hsent
    rcases hp with h | ⟨_, hne⟩
    · rw [hsent] at h
      rw [show (⟨k, rangeDelSentinel⟩ : IKey).userKey = k from rfl] at h
      rw [cmpBytes_refl] at h
      cases h
    · rw [hsent] at hne
      exact hne rfl

/-- Witness for C3: on the two-file level `[wSentFile, wRealFile]` and key
`[2]`, the search result satisfies the property and is not the sentinel
file. -/
theorem c3_witness :
    (cmpBytes wRealFile.largest.userKey [2] = Ordering.gt ∨
     (cmpBytes wRealFile.largest.userKey [2] = Ordering.eq ∧
       wRealFile.largest.trailer ≠ rangeDelSentinel)) ∧
    wRealFile.largest ≠ ⟨[2], rangeDelSentinel⟩ :=
  (c3_find_file_ge [wSentFile, wRealFile] [2]
    (List.chain'_cons.mpr ⟨by decide, List.chain'_singleton _⟩) (by decide)).2.2
    wRealFile (by decide)

/-!
### C8: apply assigns contiguous sequence numbers
-/

theorem applyLoop_assigns (es : List BEntry) :
    ∀ (m : MTable) (start : Nat), (applyLoop m start es).err = none →
      (applyLoop m start es).seq = start + es.length ∧
      (∀ i ei, es[i]? = some ei →
        (applyLoop m start es).keys[i]? =
          some (makeIKey ei.ukey (start + i) ei.kind)) := by
  induction es with
  | nil =>
    intro m start _
    refine ⟨rfl, ?_⟩
    intro i ei hei
    rw [List.getElem?_nil] at hei
    cases hei
  | cons e es ih =>
    intro m start herr
    by_cases hk : e.kind = kindRangeDelete
    · rcases hins : sklInsert m.rangeDelSkl (makeIKey e.ukey start e.kind) e.value
        with _ | rd
      · exfalso
        simp only [applyLoop, if_pos hk, hins] at herr
        cases herr
      · have hred : applyLoop m start (e :: es) =
            ⟨(applyLoop
                { m with
                  tombstonesCount := m.tombstonesCount + 1
                  tombstonesVals := none
                  rangeDelSkl := rd } (start + 1) es).err,
             (applyLoop
                { m with
                  tombstonesCount := m.tombstonesCount + 1
                  tombstonesVals := none
                  rangeDelSkl := rd } (start + 1) es).mem,
             (applyLoop
                { m with
                  tombstonesCount := m.tombstonesCount + 1
                  tombstonesVals := none
                  rangeDelSkl := rd } (start + 1) es).seq,
             makeIKey e.ukey start e.kind ::
               (applyLoop
                { m with
                  tombstonesCount := m.tombstonesCount + 1
                  tombstonesVals := none
                  rangeDelSkl := rd } (start + 1) es).keys⟩ := by
          simp only [applyLoop, if_pos hk, hins]
        rw [hred] at herr ⊢
        obtain ⟨hseq, hkeys⟩ := ih _ (start + 1) herr
        refine ⟨by simp [hseq]; omega, ?_⟩
        intro i ei hei
        cases i with
        | zero =>
          rw [List.getElem?_cons_zero] at hei ⊢
          injection hei with hei
          subst hei
          rfl
        | succ i =>
          rw [List.getElem?_cons_succ] at hei ⊢
          have := hkeys i ei hei
          rw [this]
          have : start + 1 + i = start + (i + 1) := by omega
          rw [this]
    · rcases hins : sklInsert m.skl (makeIKey e.ukey start e.kind) e.value
        with _ | s
      · exfalso
        simp only [applyLoop, if_neg hk, hins] at herr
        cases herr
      · have hred : applyLoop m start (e :: es) =
            ⟨(applyLoop { m with skl := s } (start + 1) es).err,
             (applyLoop { m with skl := s } (start + 1) es).mem,
             (applyLoop { m with skl := s } (start + 1) es).seq,
             makeIKey e.ukey start e.kind ::
               (applyLoop { m with skl := s } (start + 1) es).keys⟩ := by
          simp only [applyLoop, if_neg hk, hins]
        rw [hred] at herr ⊢
        obtain ⟨hseq, hkeys⟩ := ih _ (start + 1) herr
        refine ⟨by simp [hseq]; omega, ?_⟩
        intro i ei hei
        cases i with
        | zero =>
          rw [List.getElem?_cons_zero] at hei ⊢
          injection hei with hei
          subst hei
          rfl
        | succ i =>
          rw [List.getElem?_cons_succ] at hei ⊢
          have := hkeys i ei hei
          rw [this]
          have : start + 1 + i = start + (i + 1) := by omega
          rw [this]

/-- Claim C8: when the batch header count matches the number of streamed
entries, `apply(batch, start)` assigns internal key `(ukey_i, start + i,
kind_i)` to the i-th entry, the final sequence number is `start + count`, and
the fatal "inconsistent batch count" branch is unreachable. -/
theorem c8_apply_seq_assignment (m : MTable) (b : Batch) (start : Nat)
    (hcount : b.countField = b.entries.length) :
    (mtApply m b start).1 ≠ some ApplyErr.inconsistentBatchCount ∧
    ((applyLoop m start b.entries).err = none →
      (applyLoop m start b.entries).seq = start + b.countField ∧
      (∀ i ei, b.entries[i]? = some ei →
        (applyLoop m start b.entries).keys[i]? =
          some (makeIKey ei.ukey (start + i) ei.kind))) := by
  constructor
  · intro hbad
    unfold mtApply at hbad
    rcases herr : (applyLoop m start b.entries).err with _ | e2
    · rw [herr] at hbad
      obtain ⟨hseq, _⟩ := applyLoop_assigns b.entries m start herr
      rw [if_neg (by rw [hseq, hcount]; omega)] at hbad
      cases hbad
    · rw [herr] at hbad
      cases hbad
  · intro herr
    obtain ⟨hseq, hkeys⟩ := applyLoop_assigns b.entries m start herr
    exact ⟨by rw [hseq, hcount], hkeys⟩

/-- Witness for C8: a one-entry batch with header count 1 never trips the
fatal branch, and its entry takes sequence number `start + 0`. -/
theorem c8_witness :
    ((mtApply ⟨[], [], 0, none⟩ wSetBatch 5).1 ≠
      some ApplyErr.inconsistentBatchCount) ∧
    (applyLoop ⟨[], [], 0, none⟩ 5 wSetBatch.entries).keys[0]? =
      some (makeIKey [7] (5 + 0) 1) := by
  have h := c8_apply_seq_assignment ⟨[], [], 0, none⟩ wSetBatch 5 (by decide)
  exact ⟨h.1, (h.2 (by decide)).2 0 ⟨1, [7], [9]⟩ (by decide)⟩

/-!
### C9: RANGEDEL accounting on a failed insert
-/

/-- Claim C9: when `apply` processes a RANGEDEL entry and the range-del
skiplist insert fails, it still increments `tombstones.count` and clears the
tombstone cache before returning the error, while storing nothing — so the
count can exceed the number of stored tombstones.  The test-only `set` path,
in contrast, leaves the memtable untouched when the insert fails. -/
theorem c9_rangedel_error_accounting (m : MTable) (e : BEntry) (b : Batch)
    (start : Nat) (err : SklErr)
    (hk : e.kind = kindRangeDelete)
    (hb : b.entries = [e])
    (hfail : sklInsert m.rangeDelSkl (makeIKey e.ukey start e.kind) e.value =
      Except.error err) :
    (mtApply m b start).1 = some (ApplyErr.skl err) ∧
    (mtApply m b start).2.tombstonesCount = m.tombstonesCount + 1 ∧
    (mtApply m b start).2.tombstonesVals = none ∧
    (mtApply m b start).2.rangeDelSkl = m.rangeDelSkl ∧
    mtSet m (makeIKey e.ukey start e.kind) e.value = (some err, m) := by
  have hkind : kindOf (makeIKey e.ukey start e.kind) = kindRangeDelete := by
    unfold kindOf makeIKey
    rw [hk]
    show (start * 256 + kindRangeDelete) % U64 % 256 = kindRangeDelete
    rw [Nat.mod_mod_of_dvd _ (by norm_num [U64])]
    unfold kindRangeDelete
    omega
  have happly : mtApply m b start =
      (some (ApplyErr.skl err),
        { m with
          tombstonesCount := m.tombstonesCount + 1
          tombstonesVals := none }) := by
    unfold mtApply
    rw [hb]
    simp only [applyLoop, if_pos hk, hfail]
  rw [happly]
  refine ⟨rfl, rfl, rfl, rfl, ?_⟩
  unfold mtSet
  rw [if_pos hkind, hfail]

/-- Witness for C9 at a concrete memtable whose range-del skiplist already
holds the colliding key. -/
theorem c9_witness :
    (mtApply wMemR wRdBatch 5).1 = some (ApplyErr.skl SklErr.recordExists) ∧
    (mtApply wMemR wRdBatch 5).2.tombstonesCount = wMemR.tombstonesCount + 1 ∧
    (mtApply wMemR wRdBatch 5).2.tombstonesVals = none ∧
    (mtApply wMemR wRdBatch 5).2.rangeDelSkl = wMemR.rangeDelSkl ∧
    mtSet wMemR (makeIKey [3] 5 15) [4] = (some SklErr.recordExists, wMemR) :=
  c9_rangedel_error_accounting wMemR ⟨15, [3], [4]⟩ wRdBatch 5
    SklErr.recordExists rfl rfl rfl

/-!
### C7: tombstone-cache publication
-/

/-- Claim C7 (code bug evidence): at a failing input — build path
(`tombstonesPtr = nil`), a concurrent publisher has installed a two-fragment
cache, the local build produced one fragment — the publication loop
dereferences the nil `tombstonesPtr` at line 194 (result `none`, a
nil-pointer panic), whereas the length-guarded rule the claim and the
comment at lines 191-193 describe would keep the longer existing cache. -/
theorem c7_publish_nil_deref :
    publishStep none
      (some [(⟨[97], 3 * 256 + 15⟩, [98]), (⟨[98], 3 * 256 + 15⟩, [99])])
      [(⟨[97], 3 * 256 + 15⟩, [98])] = none ∧
    publishStepSpec
      (some [(⟨[97], 3 * 256 + 15⟩, [98]), (⟨[98], 3 * 256 + 15⟩, [99])])
      [(⟨[97], 3 * 256 + 15⟩, [98])] =
      some [(⟨[97], 3 * 256 + 15⟩, [98]), (⟨[98], 3 * 256 + 15⟩, [99])] := by
  decide

/-!
### C10: Next from before-the-start acts as First; Prev from past-the-end
acts as Last
-/

/-- Claim C10: on an error-free level iterator that has never been positioned
(`index = -1`, `iter` and `boundary` nil), `Next` runs exactly the body of
`First`; on one exhausted past the end (`index = len(files)`), `Prev` runs
exactly the body of `Last`. -/
theorem c10_next_as_first_prev_as_last (s t : LIter) (fuel fuel2 : Nat)
    (hs1 : s.err = none) (hs2 : s.iter = none) (hs3 : s.boundary = none)
    (hs4 : s.index = -1)
    (ht1 : t.err = none) (ht2 : t.iter = none) (ht3 : t.boundary = none)
    (ht4 : t.index = (t.files.length : Int)) :
    lNext s fuel = lFirst s fuel ∧ lPrev t fuel2 = lLast t fuel2 := by
  constructor
  · unfold lNext lFirst
    rw [if_neg (by rw [hs1]; simp)]
    simp only [hs2, hs3, if_pos hs4]
  · unfold lPrev lLast
    rw [if_neg (by rw [ht1]; simp)]
    simp only [ht2, ht3, if_pos ht4]

/-- Witness for C10 on a concrete one-file level. -/
theorem c10_witness :
    lNext (lInit [wFileA] none none false) 2 =
      lFirst (lInit [wFileA] none none false) 2 ∧
    lPrev wPastEndState 2 = lLast wPastEndState 2 :=
  c10_next_as_first_prev_as_last (lInit [wFileA] none none false) wPastEndState
    2 2 rfl rfl rfl (by decide) rfl rfl rfl (by decide)

/-!
### C6: sticky errors
-/

theorem lCloseSlot_err (u : LIter) (e : Nat) (h : u.err = some e) :
    (lCloseSlot u).err = some e := by
  unfold lCloseSlot
  by_cases hsi : u.slotInstalled
  · rw [if_pos hsi]
    rcases hslot : u.slot with _ | t
    · exact h
    · rcases hce : t.closeErr with _ | e2
      · simp only [hce]
        exact h
      · simp only [hce]
        rw [if_neg (by rw [h]; simp)]
        exact h
  · rw [if_neg hsi]
    exact h

/-- Claim C6: once `err` holds an error, `Next` and `Prev` are no-ops
returning false (the state is returned unchanged), `Error()` surfaces that
error, and `Close()` returns the accumulated error.  The disjunctive
hypothesis is the invariant of the two error sources in the code: either the
error came from `newIters`/a closed iterator (`iter` nil), or from a failed
`iter.Close()` that left the iterator in place, in which case re-closing it
yields the same error. -/
theorem c6_sticky_error (s : LIter) (e : Nat) (fuel fuel2 : Nat)
    (herr : s.err = some e)
    (hiter : s.iter = none ∨ ∃ it, s.iter = some it ∧ it.closeErr = some e) :
    lNext s fuel = (false, s) ∧ lPrev s fuel2 = (false, s) ∧
    lError s = some e ∧ (lClose s).1 = some e := by
  have hne : s.err ≠ none := by rw [herr]; simp
  refine ⟨by unfold lNext; rw [if_pos hne],
          by unfold lPrev; rw [if_pos hne], ?_, ?_⟩
  · unfold lError
    rw [if_pos (Or.inl hne), herr]
  · have hci : (lCloseIter s).err = some e := by
      unfold lCloseIter
      rcases hiter with hnone | ⟨it, hit, hclose⟩
      · simp only [hnone]
        exact herr
      · simp only [hit]
        exact hclose
    exact lCloseSlot_err (lCloseIter s) e hci

/-- Witness for C6 on a concrete errored iterator. -/
theorem c6_witness :
    lNext wErrState 2 = (false, wErrState) ∧
    lPrev wErrState 2 = (false, wErrState) ∧
    lError wErrState = some 7 ∧ (lClose wErrState).1 = some 7 :=
  c6_sticky_error wErrState 7 2 2 rfl (Or.inl rfl)

/-!
### C5: exactly one of iter and boundary at a valid position

The invariant `iter = none ∨ boundary = none` is established at `init` and
preserved by every operation; `Valid()` then forces exactly one of the two to
be non-null.
-/

theorem loadFileLoop_boundary : ∀ (fuel : Nat) (s : LIter) (i d : Int),
    (loadFileLoop s i d fuel).2.boundary = s.boundary := by
  intro fuel
  induction fuel with
  | zero => intro s i d; rfl
  | succ fuel ih =>
    intro s i d
    unfold loadFileLoop
    repeat' split
    all_goals first | rfl | exact ih _ _ _

theorem loadFile_boundary (s : LIter) (i d : Int) (fuel : Nat) :
    (loadFile s i d fuel).2.boundary = none := by
  unfold loadFile
  repeat' split
  all_goals first | rfl | rw [loadFileLoop_boundary]

theorem skipEmptyForward_inv : ∀ (fuel : Nat) (s : LIter),
    (s.iter = none ∨ s.boundary = none) →
    ((skipEmptyForward s fuel).2.iter = none ∨
     (skipEmptyForward s fuel).2.boundary = none) := by
  intro fuel
  induction fuel with
  | zero => intro s h; exact h
  | succ fuel ih =>
    intro s h
    unfold skipEmptyForward
    rcases hi : s.iter with _ | it
    · exact h
    · have hbn : s.boundary = none := by
        rcases h with h | h
        · rw [hi] at h; cases h
        · exact h
      rcases hc : it.closeErr with _ | e
      · simp only [hc]
        rcases hb : forwardBoundary s with _ | b
        · simp only [hb]
          rcases hl : loadFile
              (if s.slotInstalled then { s with iter := none, slot := none }
               else { s with iter := none }) (s.index + 1) 1 fuel with ⟨b2, u⟩
          have hub : u.boundary = none := by
            have := loadFile_boundary
              (if s.slotInstalled then { s with iter := none, slot := none }
               else { s with iter := none }) (s.index + 1) 1 fuel
            rw [hl] at this
            exact this
          cases b2
          · exact Or.inr hub
          · simp only []
            rcases hu : u.iter with _ | it2
            · exact Or.inr hub
            · simp only [hu]
              by_cases hf : (SubIter.first it2).1 = true
              · rw [if_pos hf]
                exact Or.inr hub
              · rw [if_neg hf]
                exact ih _ (Or.inr hub)
        · simp [hb]
      · simp only [hc]
        exact Or.inr hbn

theorem skipEmptyBackward_inv : ∀ (fuel : Nat) (s : LIter),
    (s.iter = none ∨ s.boundary = none) →
    ((skipEmptyBackward s fuel).2.iter = none ∨
     (skipEmptyBackward s fuel).2.boundary = none) := by
  intro fuel
  induction fuel with
  | zero => intro s h; exact h
  | succ fuel ih =>
    intro s h
    unfold skipEmptyBackward
    rcases hi : s.iter with _ | it
    · exact h
    · have hbn : s.boundary = none := by
        rcases h with h | h
        · rw [hi] at h; cases h
        · exact h
      rcases hc : it.closeErr with _ | e
      · simp only [hc]
        rcases hb : backwardBoundary s with _ | b
        · simp only [hb]
          rcases hl : loadFile
              (if s.slotInstalled then { s with iter := none, slot := none }
               else { s with iter := none }) (s.index - 1) (-1) fuel with ⟨b2, u⟩
          have hub : u.boundary = none := by
            have := loadFile_boundary
              (if s.slotInstalled then { s with iter := none, slot := none }
               else { s with iter := none }) (s.index - 1) (-1) fuel
            rw [hl] at this
            exact this
          cases b2
          · exact Or.inr hub
          · simp only []
            rcases hu : u.iter with _ | it2
            · exact Or.inr hub
            · simp only [hu]
              by_cases hf : (SubIter.last it2).1 = true
              · rw [if_pos hf]
                exact Or.inr hub
              · rw [if_neg hf]
                exact ih _ (Or.inr hub)
        · simp [hb]
      · simp only [hc]
        exact Or.inr hbn

theorem forwardFromLoad_inv (r : Bool × LIter) (fuel : Nat)
    (h : r.2.boundary = none) :
    ((forwardFromLoad r fuel).2.iter = none ∨
     (forwardFromLoad r fuel).2.boundary = none) := by
  unfold forwardFromLoad
  by_cases h1 : r.1 = false
  · rw [if_pos h1]
    exact Or.inr h
  · rw [if_neg h1]
    rcases hu : r.2.iter with _ | it
    · exact Or.inr h
    · simp only []
      by_cases h2 : (SubIter.first it).1 = true
      · rw [if_pos h2]
        exact Or.inr h
      · rw [if_neg h2]
        exact skipEmptyForward_inv fuel _ (Or.inr h)

theorem backwardFromLoad_inv (r : Bool × LIter) (fuel : Nat)
    (h : r.2.boundary = none) :
    ((backwardFromLoad r fuel).2.iter = none ∨
     (backwardFromLoad r fuel).2.boundary = none) := by
  unfold backwardFromLoad
  by_cases h1 : r.1 = false
  · rw [if_pos h1]
    exact Or.inr h
  · rw [if_neg h1]
    rcases hu : r.2.iter with _ | it
    · exact Or.inr h
    · simp only []
      by_cases h2 : (SubIter.last it).1 = true
      · rw [if_pos h2]
        exact Or.inr h
      · rw [if_neg h2]
        exact skipEmptyBackward_inv fuel _ (Or.inr h)

theorem lNext_inv (s : LIter) (fuel : Nat)
    (h : s.iter = none ∨ s.boundary = none) :
    ((lNext s fuel).2.iter = none ∨ (lNext s fuel).2.boundary = none) := by
  unfold lNext
  by_cases he : s.err ≠ none
  · rw [if_pos he]
    exact h
  · rw [if_neg he]
    rcases hi : s.iter with _ | it
    · rcases hb : s.boundary with _ | b
      · by_cases hidx : s.index = -1
        · rw [if_pos hidx]
          exact forwardFromLoad_inv _ fuel (loadFile_boundary s 0 1 fuel)
        · rw [if_neg hidx]
          exact h
      · exact forwardFromLoad_inv _ fuel (loadFile_boundary s (s.index + 1) 1 fuel)
    · have hbn : s.boundary = none := by
        rcases h with h | h
        · rw [hi] at h; cases h
        · exact h
      simp only []
      by_cases hn : (SubIter.next it).1 = true
      · rw [if_pos hn]
        exact Or.inr hbn
      · rw [if_neg hn]
        exact skipEmptyForward_inv fuel _ (Or.inr hbn)

theorem lPrev_inv (s : LIter) (fuel : Nat)
    (h : s.iter = none ∨ s.boundary = none) :
    ((lPrev s fuel).2.iter = none ∨ (lPrev s fuel).2.boundary = none) := by
  unfold lPrev
  by_cases he : s.err ≠ none
  · rw [if_pos he]
    exact h
  · rw [if_neg he]
    rcases hi : s.iter with _ | it
    · rcases hb : s.boundary with _ | b
      · by_cases hidx : s.index = (s.files.length : Int)
        · rw [if_pos hidx]
          exact backwardFromLoad_inv _ fuel
            (loadFile_boundary s ((s.files.length : Int) - 1) (-1) fuel)
        · rw [if_neg hidx]
          exact h
      · exact backwardFromLoad_inv _ fuel
          (loadFile_boundary s (s.index - 1) (-1) fuel)
    · have hbn : s.boundary = none := by
        rcases h with h | h
        · rw [hi] at h; cases h
        · exact h
      simp only []
      by_cases hn : (SubIter.prev it).1 = true
      · rw [if_pos hn]
        exact Or.inr hbn
      · rw [if_neg hn]
        exact skipEmptyBackward_inv fuel _ (Or.inr hbn)

theorem lSeekGE_inv (s : LIter) (key : List Nat) (fuel : Nat) :
    ((lSeekGE s key fuel).2.iter = none ∨ (lSeekGE s key fuel).2.boundary = none) := by
  unfold lSeekGE
  have hb := loadFile_boundary s (findFileGE s.files key : Int) 1 fuel
  by_cases h1 : (loadFile s (findFileGE s.files key : Int) 1 fuel).1 = false
  · rw [if_pos h1]
    exact Or.inr hb
  · rw [if_neg h1]
    rcases hu : (loadFile s (findFileGE s.files key : Int) 1 fuel).2.iter with _ | it
    · exact Or.inr hb
    · simp only []
      by_cases h2 : (SubIter.seekGE it key).1 = true
      · rw [if_pos h2]
        exact Or.inr hb
      · rw [if_neg h2]
        exact skipEmptyForward_inv fuel _ (Or.inr hb)

theorem lSeekLT_inv (s : LIter) (key : List Nat) (fuel : Nat) :
    ((lSeekLT s key fuel).2.iter = none ∨ (lSeekLT s key fuel).2.boundary = none) := by
  unfold lSeekLT
  have hb := loadFile_boundary s (findFileLT s.files key) (-1) fuel
  by_cases h1 : (loadFile s (findFileLT s.files key) (-1) fuel).1 = false
  · rw [if_pos h1]
    exact Or.inr hb
  · rw [if_neg h1]
    rcases hu : (loadFile s (findFileLT s.files key) (-1) fuel).2.iter with _ | it
    · exact Or.inr hb
    · simp only []
      by_cases h2 : (SubIter.seekLT it key).1 = true
      · rw [if_pos h2]
        exact Or.inr hb
      · rw [if_neg h2]
        exact skipEmptyBackward_inv fuel _ (Or.inr hb)

theorem lCloseSlot_iter (u : LIter) : (lCloseSlot u).iter = u.iter := by
  unfold lCloseSlot
  repeat' split
  all_goals rfl

theorem lClose_iter_none (s : LIter) : (lClose s).2.iter = none := by
  show (lCloseSlot (lCloseIter s)).iter = none
  rw [lCloseSlot_iter]
  unfold lCloseIter
  rcases hi : s.iter with _ | it
  · exact hi
  · rfl

theorem lStep_inv (s : LIter) (op : LOp)
    (h : s.iter = none ∨ s.boundary = none) :
    ((lStep s op).iter = none ∨ (lStep s op).boundary = none) := by
  cases op with
  | seekGE k fuel => exact lSeekGE_inv s k fuel
  | seekLT k fuel => exact lSeekLT_inv s k fuel
  | first fuel => exact forwardFromLoad_inv _ fuel (loadFile_boundary s 0 1 fuel)
  | last fuel =>
    exact backwardFromLoad_inv _ fuel
      (loadFile_boundary s ((s.files.length : Int) - 1) (-1) fuel)
  | next fuel => exact lNext_inv s fuel h
  | prev fuel => exact lPrev_inv s fuel h
  | close => exact Or.inl (lClose_iter_none s)

theorem lRun_inv (ops : List LOp) : ∀ (s : LIter),
    (s.iter = none ∨ s.boundary = none) →
    ((lRun s ops).iter = none ∨ (lRun s ops).boundary = none) := by
  induction ops with
  | nil => intro s h; exact h
  | cons op ops ih => intro s h; exact ih _ (lStep_inv s op h)

/-- Claim C5: after any sequence of operations from `init`, whenever the
level iterator reports `Valid() = true`, exactly one of `iter` and `boundary`
is non-null. -/
theorem c5_exactly_one_of_iter_boundary (files : List FileMeta)
    (lower upper : Option (List Nat)) (slotInstalled : Bool) (ops : List LOp)
    (hv : lValid (lRun (lInit files lower upper slotInstalled) ops) = true) :
    ((lRun (lInit files lower upper slotInstalled) ops).iter ≠ none ∧
     (lRun (lInit files lower upper slotInstalled) ops).boundary = none) ∨
    ((lRun (lInit files lower upper slotInstalled) ops).iter = none ∧
     (lRun (lInit files lower upper slotInstalled) ops).boundary ≠ none) := by
  have hinv := lRun_inv ops (lInit files lower upper slotInstalled)
    (Or.inl rfl)
  rcases hi : (lRun (lInit files lower upper slotInstalled) ops).iter with _ | it
  · right
    refine ⟨rfl, ?_⟩
    unfold lValid at hv
    rw [hi] at hv
    intro hb
    rw [hb] at hv
    cases hv
  · left
    refine ⟨by simp, ?_⟩
    rcases hinv with h | h
    · rw [hi] at h
      cases h
    · exact h

/-!
### C4: boundary materialization at a RANGEDEL largest key
-/

theorem loadFileLoop_index_ge : ∀ (fuel : Nat) (s : LIter) (i : Int)
    (b : Bool) (u : LIter),
    loadFileLoop s i 1 fuel = (b, u) → b = true → i ≤ u.index := by
  intro fuel
  induction fuel with
  | zero =>
    intro s i b u heq hb
    subst hb
    exact Bool.noConfusion (congrArg Prod.fst heq)
  | succ fuel ih =>
    intro s i b u heq hb
    subst hb
    unfold loadFileLoop at heq
    repeat' split at heq
    all_goals first
      | exact Bool.noConfusion (congrArg Prod.fst heq)
      | (injection heq with h1 h2
         subst h2
         exact le_refl _)
      | (have h2 := ih _ (i + 1) true u heq rfl
         omega)

theorem loadFile_index_ge (s : LIter) (i : Int) (fuel : Nat) (b : Bool)
    (u : LIter) (heq : loadFile s i 1 fuel = (b, u)) (hb : b = true) :
    i ≤ u.index := by
  subst hb
  unfold loadFile at heq
  split at heq
  · injection heq with h1 h2
    subst h2
    show i ≤ s.index
    omega
  · repeat' split at heq
    all_goals first
      | exact Bool.noConfusion (congrArg Prod.fst heq)
      | exact loadFileLoop_index_ge fuel _ i true u heq rfl

theorem skipEmptyForward_index_ge : ∀ (fuel : Nat) (s : LIter) (b : Bool)
    (u : LIter),
    skipEmptyForward s fuel = (b, u) → b = true → s.index ≤ u.index := by
  intro fuel
  induction fuel with
  | zero =>
    intro s b u heq hb
    subst hb
    exact Bool.noConfusion (congrArg Prod.fst heq)
  | succ fuel ih =>
    intro s b u heq hb
    subst hb
    unfold skipEmptyForward at heq
    split at heq
    · exact Bool.noConfusion (congrArg Prod.fst heq)
    · split at heq
      · exact Bool.noConfusion (congrArg Prod.fst heq)
      · split at heq
        · -- boundary materialized: index unchanged
          injection heq with h1 h2
          subst h2
          exact le_refl _
        · -- moved to the next file
          split at heq
          · exact Bool.noConfusion (congrArg Prod.fst heq)
          · rename_i u2 hload
            split at heq
            · rename_i it2 hit2
              split at heq
              · injection heq with h1 h2
                subst h2
                have h3 := loadFile_index_ge _ (s.index + 1) fuel true u2 hload rfl
                show s.index ≤ u2.index
                omega
              · have h3 := loadFile_index_ge _ (s.index + 1) fuel true u2 hload rfl
                have h4 := ih _ true u heq rfl
                have h5 : ({ u2 with iter := some (SubIter.first it2).2 } : LIter).index
                    = u2.index := rfl
                omega
            · exact Bool.noConfusion (congrArg Prod.fst heq)

/-- On the state `skipEmptyFileForward` sees right after the point iterator
was exhausted, when the range-del slot is installed and the current file's
largest key has kind RANGEDEL, the loop body materializes the boundary and
returns true without touching the slot (part_000 lines 638-645). -/
theorem skipEmptyForward_boundary (s : LIter) (it : SubIter) (f : FileMeta)
    (fuel : Nat)
    (hiter : s.iter = some it) (hclose : it.closeErr = none)
    (hslot : s.slotInstalled = true)
    (hidx : 0 ≤ s.index) (hfile : s.files[s.index.toNat]? = some f)
    (hkind : kindOf f.largest = kindRangeDelete) :
    skipEmptyForward s (fuel + 1) =
      (true, { s with iter := none, boundary := some f.largest }) := by
  have hfb : forwardBoundary s = some f.largest := by
    unfold forwardBoundary fileAt?
    rw [if_pos hslot, if_pos hidx, hfile]
    simp [hkind]
  unfold skipEmptyForward
  simp only [hiter, hclose, hfb]

theorem forwardFromLoad_index_ge (r : Bool × LIter) (fuel : Nat) (i : Int)
    (hr : r.1 = true → i ≤ r.2.index) (b : Bool) (u : LIter)
    (heq : forwardFromLoad r fuel = (b, u)) (hb : b = true) : i ≤ u.index := by
  subst hb
  unfold forwardFromLoad at heq
  split at heq
  · exact Bool.noConfusion (congrArg Prod.fst heq)
  · rename_i hr1
    have hi : i ≤ r.2.index := by
      apply hr
      cases hb1 : r.1
      · exact absurd hb1 hr1
      · rfl
    split at heq
    · rename_i it hit
      split at heq
      · injection heq with h1 h2
        subst h2
        exact hi
      · have h4 := skipEmptyForward_index_ge fuel _ true u heq rfl
        have h5 : ({ r.2 with iter := some (SubIter.first it).2 } : LIter).index
            = r.2.index := rfl
        omega
    · exact Bool.noConfusion (congrArg Prod.fst heq)

/-- Claim C4: with the range-del slot installed and populated, exhausting the
current file's point iterator forward when the file's largest key has kind
RANGEDEL makes `Next` return true with `boundary` set to that key, `iter`
nil, the slot untouched, `Key()` equal to the file's largest key and
`Value()` nil; the following `Next` either returns false or advances to a
later file. -/
theorem c4_boundary_materialization (s : LIter) (it rd : SubIter)
    (f : FileMeta) (fuel fuel2 : Nat)
    (herr : s.err = none)
    (hiter : s.iter = some it)
    (hclose : it.closeErr = none)
    (hslot : s.slotInstalled = true)
    (hslotval : s.slot = some rd)
    (hidx : 0 ≤ s.index)
    (hfile : s.files[s.index.toNat]? = some f)
    (hkind : kindOf f.largest = kindRangeDelete)
    (hexhaust : ¬ (0 ≤ it.pos + 1 ∧ it.pos + 1 < (it.entries.length : Int))) :
    lNext s (fuel + 1) =
      (true, { s with iter := none, boundary := some f.largest }) ∧
    lKey { s with iter := none, boundary := some f.largest } = f.largest ∧
    lValue { s with iter := none, boundary := some f.largest } = none ∧
    ({ s with iter := none, boundary := some f.largest } : LIter).slot = some rd ∧
    ((lNext { s with iter := none, boundary := some f.largest } fuel2).1 = true →
      s.index < (lNext { s with iter := none, boundary := some f.largest } fuel2).2.index) := by
  have hnext1 : (SubIter.next it).1 = false := by
    unfold SubIter.next SubIter.valid
    exact decide_eq_false hexhaust
  have h1 : lNext s (fuel + 1) =
      skipEmptyForward { s with iter := some (SubIter.next it).2 } (fuel + 1) := by
    unfold lNext
    rw [if_neg (by rw [herr]; simp)]
    simp only [hiter]
    rw [if_neg (by rw [hnext1]; simp)]
  have h2 := skipEmptyForward_boundary
    { s with iter := some (SubIter.next it).2 } (SubIter.next it).2 f fuel
    rfl hclose hslot hidx hfile hkind
  refine ⟨h1.trans h2, rfl, rfl, hslotval, ?_⟩
  intro ht
  have hred : lNext { s with iter := none, boundary := some f.largest } fuel2 =
      forwardFromLoad
        (loadFile { s with iter := none, boundary := some f.largest }
          (s.index + 1) 1 fuel2) fuel2 := by
    unfold lNext
    rw [if_neg (by show ¬ (s.err ≠ none); rw [herr]; simp)]
  rw [hred] at ht ⊢
  have h6 : s.index + 1 ≤ (forwardFromLoad
      (loadFile { s with iter := none, boundary := some f.largest }
        (s.index + 1) 1 fuel2) fuel2).2.index := by
    refine forwardFromLoad_index_ge _ fuel2 (s.index + 1) ?_ _ _ rfl ht
    intro hl
    exact loadFile_index_ge _ (s.index + 1) fuel2 _ _ rfl hl
  omega

/-- Witness for C4 on the concrete one-file level of `wBoundaryState`. -/
theorem c4_witness :
    lNext wBoundaryState 3 =
      (true, { wBoundaryState with iter := none, boundary := some wBoundaryFile.largest }) ∧
    lKey { wBoundaryState with iter := none, boundary := some wBoundaryFile.largest } =
      wBoundaryFile.largest ∧
    lValue { wBoundaryState with iter := none, boundary := some wBoundaryFile.largest } =
      none ∧
    ({ wBoundaryState with iter := none, boundary := some wBoundaryFile.largest } : LIter).slot =
      some wRdIter ∧
    ((lNext { wBoundaryState with iter := none, boundary := some wBoundaryFile.largest } 3).1 = true →
      wBoundaryState.index <
        (lNext { wBoundaryState with iter := none, boundary := some wBoundaryFile.largest } 3).2.index) :=
  c4_boundary_materialization wBoundaryState wPtIter wRdIter wBoundaryFile 2 3
    rfl rfl rfl rfl rfl (by decide) rfl (by decide) (by decide)

/-- Witness for C5: a `First` on a concrete one-file level lands on a valid
entry, where the point iterator is open and no boundary is materialized. -/
theorem c5_witness :
    ((lRun (lInit [wFileA] none none false) [LOp.first 2]).iter ≠ none ∧
     (lRun (lInit [wFileA] none none false) [LOp.first 2]).boundary = none) ∨
    ((lRun (lInit [wFileA] none none false) [LOp.first 2]).iter = none ∧
     (lRun (lInit [wFileA] none none false) [LOp.first 2]).boundary ≠ none) :=
  c5_exactly_one_of_iter_boundary [wFileA] none none false [LOp.first 2]
    (by decide)

end Pebble
